import Mathlib

/-!
Verification development for the Booteja UEFI boot-variable utility
(src/Booteja.cpp). The load-option codec, the boot-order helpers and the
command-level operations are embedded shallowly:

* raw variable contents are `List Nat` with every element `< 256`
  (a `std::vector<BYTE>`);
* UTF-16 code units (`wchar_t` on Windows, 16 bit) are `Nat < 65536`;
* `UINT32` / `UINT16` fields are `Nat` with the corresponding bound;
* textual command arguments (`std::wstring`) are `List Char`;
* a command is a pure function from the values it reads to either an
  exit code (`Except.error`, no storage write happens) or the bytes it
  writes (`Except.ok`).
-/

set_option maxHeartbeats 1000000

namespace Booteja

/-- `constexpr UINT32 LOAD_OPTION_ACTIVE = 0x00000001`. -/
def LOAD_OPTION_ACTIVE : Nat := 1

/-- `struct ParsedLoadOption` from the source.  `Attributes` is a `UINT32`,
`FilePathListLength` a `UINT16`, `Description` a `std::wstring` (16-bit code
units), `DevicePath` and `OptionalData` are byte vectors. -/
structure ParsedLoadOption where
  Attributes : Nat
  FilePathListLength : Nat
  Description : List Nat
  DevicePath : List Nat
  OptionalData : List Nat
deriving DecidableEq

/-- The while loop of `ReadUcs2String`, modelled structurally on the byte
suffix that starts at the read cursor: while at least two bytes remain,
read the little-endian code unit `data[i] | (data[i+1] << 8)`, advance by
two, stop after consuming a zero unit.  Returns the units read (terminator
excluded) and the number of bytes consumed. -/
def scanUcs2 : List Nat → List Nat × Nat
  | b0 :: b1 :: rest =>
    if b0 ||| (b1 <<< 8) = 0 then ([], 2)
    else
      let r := scanUcs2 rest
      ((b0 ||| (b1 <<< 8)) :: r.1, r.2 + 2)
  | _ => ([], 0)

/-- `ReadUcs2String(data, start, nextOffset)`: scan code units from `start`;
afterwards, if the cursor is odd, advance one byte to realign
(`if (i & 1) i++`).  Result: the string and the final cursor `nextOffset`. -/
def ReadUcs2String (data : List Nat) (start : Nat) : List Nat × Nat :=
  let r := scanUcs2 (data.drop start)
  let i := start + r.2
  (r.1, if i % 2 = 1 then i + 1 else i)

/-- Whether the code-unit scan starting at a given suffix would stop because
of a zero terminator (rather than by running off the end of the buffer). -/
def hasTerminator : List Nat → Bool
  | b0 :: b1 :: rest =>
    if b0 ||| (b1 <<< 8) = 0 then true else hasTerminator rest
  | _ => false

/-- `ParseLoadOption(buf, plo)`.  `false` (modelled `none`) when
`buf.size() < 6` or when the declared device-path length overruns the
buffer; otherwise the decoded record.  The source reads `Attributes` and
`FilePathListLength` by little-endian overlay on bytes 0-5, scans the
description from offset 6, then slices the device path and the optional
data.  The final `if (offset <= buf.size())` of the source always holds
once the device-path check passed, so `OptionalData` is the whole tail. -/
def ParseLoadOption (buf : List Nat) : Option ParsedLoadOption :=
  match buf with
  | b0 :: b1 :: b2 :: b3 :: b4 :: b5 :: _ =>
    let r := ReadUcs2String buf 6
    if r.2 + (b4 + 256 * b5) ≤ buf.length then
      some { Attributes := b0 + 256 * b1 + 65536 * b2 + 16777216 * b3,
             FilePathListLength := b4 + 256 * b5,
             Description := r.1,
             DevicePath := (buf.drop r.2).take (b4 + 256 * b5),
             OptionalData := buf.drop (r.2 + (b4 + 256 * b5)) }
    else none
  | _ => none

/-- `push16`: the two little-endian bytes `memcpy` writes for a `UINT16`
value (equivalently, for any `Nat` reduced mod 2^16). -/
def push16 (v : Nat) : List Nat := [v % 256, v / 256 % 256]

/-- `push32`: the four little-endian bytes `memcpy` writes for a `UINT32`. -/
def push32 (v : Nat) : List Nat :=
  [v % 256, v / 256 % 256, v / 65536 % 256, v / 16777216 % 256]

/-- The description loop of `BuildLoadOption`: each code unit as two
little-endian bytes, in order. -/
def encodeDesc (d : List Nat) : List Nat :=
  d.foldr (fun ch acc => push16 ch ++ acc) []

/-- `BuildLoadOption(plo)`: attributes, device-path length re-derived as
`static_cast<UINT16>(plo.DevicePath.size())` (i.e. the length mod 2^16,
which is what `push16` writes), the description with a zero terminator,
then the device path and optional data verbatim. -/
def BuildLoadOption (plo : ParsedLoadOption) : List Nat :=
  push32 plo.Attributes ++ push16 plo.DevicePath.length ++
    encodeDesc plo.Description ++ push16 0 ++
    plo.DevicePath ++ plo.OptionalData

/-- Reinterpreting a byte vector as consecutive little-endian `UINT16`
values (`ids.assign(reinterpret_cast<const UINT16*>(...), ...)`); a
trailing odd byte is ignored. -/
def bytesToU16LE : List Nat → List Nat
  | b0 :: b1 :: rest => (b0 ||| (b1 <<< 8)) :: bytesToU16LE rest
  | _ => []

/-- `GetBootOrder()` on the raw bytes of the `BootOrder` variable
(an absent variable reads as the empty byte vector): if the byte count is
odd the empty list, else the little-endian 16-bit reinterpretation. -/
def GetBootOrder (raw : List Nat) : List Nat :=
  if raw.length % 2 = 1 then [] else bytesToU16LE raw

/-! ### Textual boot IDs and command models -/

/-- The whitespace class `::iswspace` on the ASCII range. -/
def isWSpaceChar (c : Char) : Bool :=
  c == ' ' || c == '\t' || c == '\n' || c == '\r' ||
  c == Char.ofNat 11 || c == Char.ofNat 12

/-- Value of a hexadecimal digit character. -/
def hexVal (c : Char) : Option Nat :=
  if 48 ≤ c.toNat ∧ c.toNat ≤ 57 then some (c.toNat - 48)
  else if 97 ≤ c.toNat ∧ c.toNat ≤ 102 then some (c.toNat - 87)
  else if 65 ≤ c.toNat ∧ c.toNat ≤ 70 then some (c.toNat - 55)
  else none

/-- Maximal leading run of hexadecimal digits, as digit values. -/
def hexRun : List Char → List Nat
  | c :: rest =>
    match hexVal c with
    | some d => d :: hexRun rest
    | none => []
  | [] => []

/-- Models the `std::wstringstream` extraction
`hs << std::hex << tok; hs >> v` for an `unsigned v`: skip leading
whitespace, accept one optional `+`/`-` sign atom, consume an optional
`0x`/`0X` when a hex digit follows, then read the maximal run of hex
digits; extraction fails when the digit run is empty.  Conversion follows
the `strtoul` rules the implementation's `num_get` uses on this platform
(`unsigned long` is 32 bits on Windows): a magnitude past `ULONG_MAX`
fails the stream (`ERANGE`), and a `-` sign negates the value modulo
2^32.  So `+5` extracts 5, `-0` extracts 0, and `-5` extracts
4294967291 (which the callers then reject by their `> 0xFFFF` range
check). -/
def parseHexStream (s : List Char) : Option Nat :=
  let s1 := s.dropWhile isWSpaceChar
  let signNeg : Bool :=
    match s1 with
    | '-' :: _ => true
    | _ => false
  let s2 :=
    match s1 with
    | '-' :: rest => rest
    | '+' :: rest => rest
    | _ => s1
  let s3 :=
    match s2 with
    | c0 :: cx :: rest =>
      if c0 == '0' && (cx == 'x' || cx == 'X') && !(hexRun rest).isEmpty then rest
      else s2
    | _ => s2
  let ds := hexRun s3
  if ds = [] then none
  else
    let m := ds.foldl (fun a d => a * 16 + d) 0
    if m > 4294967295 then none
    else some (if signNeg then (4294967296 - m) % 4294967296 else m)

/-- `if (tok.rfind(L"Boot", 0) == 0) tok = tok.substr(4)`: strip the
exact, case-sensitive four-character literal. -/
def stripBoot (s : List Char) : List Char :=
  match s with
  | c1 :: c2 :: c3 :: c4 :: rest =>
    if c1 == 'B' && c2 == 'o' && c3 == 'o' && c4 == 't' then rest else s
  | _ => s

/-- The textual-ID parse shared verbatim by `cmd_order_set`, `cmd_select`,
`cmd_next`, `cmd_enable_disable` and `cmd_rename`: strip the `Boot`
literal, extract a hex value, reject values above `0xFFFF`. -/
def parseBootId (tok : List Char) : Option Nat :=
  match parseHexStream (stripBoot tok) with
  | none => none
  | some v => if v > 65535 then none else some v

/-- Position of the first occurrence of a value (`std::find`). -/
def findFirstIdx (l : List Nat) (t : Nat) : Option Nat :=
  match l with
  | [] => none
  | a :: rest => if a = t then some 0 else (findFirstIdx rest t).map (fun i => i + 1)

/-- `cmd_select` as a function of the stored order: empty order exits 1,
unparseable ID exits 2, ID absent from the order exits 3 — all without a
write; otherwise `std::rotate(order.begin(), it, it + 1)` brings the found
element to the front and the result is written back. -/
def cmd_select (order : List Nat) (idTok : List Char) : Except Nat (List Nat) :=
  if order = [] then .error 1
  else
    match parseBootId idTok with
    | none => .error 2
    | some target =>
      match findFirstIdx order target with
      | none => .error 3
      | some i => .ok (target :: (order.take i ++ order.drop (i + 1)))

/-- Per-token processing of `cmd_order_set`: `::iswspace` characters are
removed anywhere in the token before the shared ID parse. -/
def parseOrderTok (t : List Char) : Option Nat :=
  parseBootId (t.filter (fun c => ! isWSpaceChar c))

/-- The token loop of `cmd_order_set`: left to right, stopping at the
first invalid token. -/
def parseOrderToks : List (List Char) → Option (List Nat)
  | [] => some []
  | t :: ts =>
    match parseOrderTok t with
    | none => none
    | some v => (parseOrderToks ts).map (fun l => v :: l)

/-- `cmd_order_set` on the comma-split tokens: any invalid token, or an
empty token list, exits 2 with no write; otherwise the parsed list is
written in a single `SetBootOrder` call. -/
def cmd_order_set (toks : List (List Char)) : Except Nat (List Nat) :=
  match parseOrderToks toks with
  | none => .error 2
  | some newOrder => if newOrder = [] then .error 2 else .ok newOrder

/-- `cmd_next`: parse the ID and write it to `BootNext`. -/
def cmd_next (idTok : List Char) : Except Nat Nat :=
  match parseBootId idTok with
  | none => .error 2
  | some target => .ok target

/-- The attribute update of `cmd_enable_disable`:
`plo.Attributes |= LOAD_OPTION_ACTIVE` or
`plo.Attributes &= ~LOAD_OPTION_ACTIVE` (the complement of 1 on a
`UINT32` is `0xFFFFFFFE`). -/
def setActiveAttrs (a : Nat) (enable : Bool) : Nat :=
  if enable then a ||| LOAD_OPTION_ACTIVE else a &&& 4294967294

/-- `cmd_enable_disable` as a function of the entry's raw bytes (an absent
variable reads as the empty vector): parse the ID (exit 2), read and
decode the entry (exit 3), update the active bit, encode and write. -/
def cmd_enable_disable (entryData : List Nat) (idTok : List Char) (enable : Bool) :
    Except Nat (List Nat) :=
  match parseBootId idTok with
  | none => .error 2
  | some _ =>
    if entryData = [] then .error 3
    else
      match ParseLoadOption entryData with
      | none => .error 3
      | some plo =>
        .ok (BuildLoadOption { plo with Attributes := setActiveAttrs plo.Attributes enable })

/-- `cmd_rename`: parse the ID (exit 2), read and decode the entry
(exit 3), replace only the description, encode and write.  The new label
is given as its 16-bit code units. -/
def cmd_rename (entryData : List Nat) (idTok : List Char) (newLabel : List Nat) :
    Except Nat (List Nat) :=
  match parseBootId idTok with
  | none => .error 2
  | some _ =>
    if entryData = [] then .error 3
    else
      match ParseLoadOption entryData with
      | none => .error 3
      | some plo =>
        .ok (BuildLoadOption { plo with Description := newLabel })

example : parseBootId ['0', '0', '0', '1'] = some 1 := by decide
example : parseBootId ['B', 'o', 'o', 't', '0', '0', '0', '1'] = some 1 := by decide
example : parseBootId ['b', 'o', 'o', 't', '0', '0', '0', '1'] = some 11 := by decide
example : parseBootId ['B', 'O', 'O', 'T', '0', '0', '0', '1'] = some 11 := by decide
example : parseBootId [] = none := by decide
example : parseBootId ['0', '0', '9', '9'] = some 153 := by decide
example : parseBootId ['+', '5'] = some 5 := by decide
example : parseBootId ['-', '0'] = some 0 := by decide
example : parseHexStream ['-', '5'] = some 4294967291 := by decide
example : parseBootId ['-', '5'] = none := by decide
example : cmd_order_set [['+', '5']] = .ok [5] := rfl
example : cmd_select [1, 2, 3] ['0', '0', '0', '2'] = .ok [2, 1, 3] := rfl
example : cmd_select [1, 2, 3] ['0', '0', '9', '9'] = .error 3 := rfl
example : cmd_order_set [['0', '0', '0', '4'], ['0', '0', '0', '1']] = .ok [4, 1] := rfl
example : cmd_order_set [['0', '0', '0', '4'], []] = .error 2 := rfl

/-! ### Byte-level helper lemmas -/

/-- Recombining two bytes with `b0 | (b1 << 8)` is plain arithmetic when
`b0` fits in a byte. -/
theorem lor_shl8 (a b : Nat) (ha : a < 256) : a ||| (b <<< 8) = a + 256 * b := by
  apply Nat.eq_of_testBit_eq
  intro i
  rw [Nat.testBit_or, Nat.testBit_shiftLeft]
  by_cases h8 : 8 ≤ i
  · obtain ⟨j, rfl⟩ : ∃ j, i = 8 + j := ⟨i - 8, by omega⟩
    have h28 : (256 : Nat) = 2 ^ 8 := by norm_num
    have ha' : a.testBit (8 + j) = false :=
      Nat.testBit_lt_two_pow
        (lt_of_lt_of_le (h28 ▸ ha) (Nat.pow_le_pow_right (by omega) (by omega)))
    have hdiv : (a + 256 * b) / 2 ^ (8 + j) = b / 2 ^ j := by
      rw [Nat.pow_add, ← Nat.div_div_eq_div_mul]
      have h256 : (2 : Nat) ^ 8 = 256 := by norm_num
      rw [h256, Nat.add_mul_div_left a b (by omega), Nat.div_eq_of_lt ha, Nat.zero_add]
    have hRHS : (a + 256 * b).testBit (8 + j) = b.testBit j := by
      rw [Nat.testBit_to_div_mod, hdiv, ← Nat.testBit_to_div_mod]
    have hj : 8 + j - 8 = j := by omega
    rw [ha', hRHS, hj]
    simp [Nat.le_add_right]
  · have hdec : decide (8 ≤ i) = false := by simp [h8]
    have hsplit : (256 : Nat) = 2 ^ i * 2 ^ (8 - i) := by
      rw [← Nat.pow_add]
      have : i + (8 - i) = 8 := by omega
      rw [this]
    have hdiv : (a + 256 * b) / 2 ^ i = a / 2 ^ i + 2 ^ (8 - i) * b := by
      rw [hsplit, Nat.mul_assoc,
        Nat.add_mul_div_left a _ (Nat.pow_pos (by omega))]
    have heven : (a / 2 ^ i + 2 ^ (8 - i) * b) % 2 = a / 2 ^ i % 2 := by
      have h1 : 8 - i = (7 - i) + 1 := by omega
      rw [h1, Nat.pow_succ, Nat.mul_comm (2 ^ (7 - i)) 2, Nat.mul_assoc,
        Nat.add_mul_mod_self_left]
    have hRHS : (a + 256 * b).testBit i = a.testBit i := by
      rw [Nat.testBit_to_div_mod, hdiv, heven, ← Nat.testBit_to_div_mod]
    rw [hdec, Bool.false_and, Bool.or_false, hRHS]

theorem encodeDesc_cons (ch : Nat) (d : List Nat) :
    encodeDesc (ch :: d) = push16 ch ++ encodeDesc d := rfl

theorem encodeDesc_nil : encodeDesc [] = [] := rfl

theorem encodeDesc_length (d : List Nat) : (encodeDesc d).length = 2 * d.length := by
  induction d with
  | nil => rfl
  | cons ch d ih => simp [encodeDesc_cons, push16, ih]; omega

/-- Scanning the encoding of a description whose units are 16-bit and
nonzero consumes exactly the description plus its terminator and returns
the description. -/
theorem scanUcs2_encodeDesc : ∀ (d rest : List Nat),
    (∀ ch ∈ d, ch < 65536 ∧ ch ≠ 0) →
    scanUcs2 (encodeDesc d ++ (0 :: 0 :: rest)) = (d, 2 * d.length + 2)
  | [], rest, _ => by simp [encodeDesc_nil, scanUcs2]
  | ch :: d, rest, hd => by
    have hch := hd ch (by simp)
    have hlow : ch % 256 < 256 := Nat.mod_lt _ (by omega)
    have hrec : ch % 256 ||| (ch / 256 % 256) <<< 8 = ch := by
      rw [lor_shl8 _ _ hlow]; omega
    have hne : ¬ (ch % 256 ||| (ch / 256 % 256) <<< 8 = 0) := by
      rw [hrec]; exact hch.2
    have ih := scanUcs2_encodeDesc d rest (fun c hc => hd c (by simp [hc]))
    have key : encodeDesc (ch :: d) ++ (0 :: 0 :: rest) =
        (ch % 256) :: (ch / 256 % 256) :: (encodeDesc d ++ (0 :: 0 :: rest)) := by
      simp [encodeDesc_cons, push16]
    rw [key]
    simp only [scanUcs2]
    rw [hrec, if_neg hch.2, ih]
    simp
    omega

/-- A scan that found a zero terminator re-encodes to the original bytes:
the consumed prefix is the encoding of the returned string plus the
terminator pair, and the consumed count is even and within bounds. -/
theorem scanUcs2_reencode : ∀ (l : List Nat),
    (∀ b ∈ l, b < 256) → hasTerminator l = true →
    encodeDesc (scanUcs2 l).1 ++ (0 :: 0 :: l.drop (scanUcs2 l).2) = l
  | [], _, ht => by simp [hasTerminator] at ht
  | [b], _, ht => by simp [hasTerminator] at ht
  | b0 :: b1 :: rest, hb, ht => by
    have hb0 : b0 < 256 := hb _ (by simp)
    have hb1 : b1 < 256 := hb _ (by simp)
    by_cases h : b0 ||| (b1 <<< 8) = 0
    · have h0 : b0 = 0 ∧ b1 = 0 := by
        rw [lor_shl8 _ _ hb0] at h; omega
      simp [scanUcs2, h, encodeDesc_nil, h0.1, h0.2]
    · have ht' : hasTerminator rest = true := by
        simpa [hasTerminator, h] using ht
      have ih := scanUcs2_reencode rest (fun b hbm => hb b (by simp [hbm])) ht'
      have hch : b0 ||| (b1 <<< 8) = b0 + 256 * b1 := lor_shl8 _ _ hb0
      have hp : push16 (b0 + 256 * b1) = [b0, b1] := by
        simp [push16]; omega
      have h' : ¬ (b0 = 0 ∧ b1 = 0) := by
        rw [hch] at h; omega
      simp [scanUcs2, h', encodeDesc_cons, hch, hp, ih]

/-- The consumed byte count of a scan is even and bounded by the input. -/
theorem scanUcs2_le_even : ∀ l : List Nat,
    (scanUcs2 l).2 ≤ l.length ∧ (scanUcs2 l).2 % 2 = 0
  | [] => by simp [scanUcs2]
  | [b] => by simp [scanUcs2]
  | b0 :: b1 :: rest => by
    have ih := scanUcs2_le_even rest
    by_cases h : b0 ||| (b1 <<< 8) = 0
    · simp [scanUcs2, h]
    · simp [scanUcs2, h]
      omega

/-- Every unit a scan of valid bytes returns is a nonzero 16-bit value. -/
theorem scanUcs2_wf : ∀ l : List Nat, (∀ b ∈ l, b < 256) →
    ∀ ch ∈ (scanUcs2 l).1, ch < 65536 ∧ ch ≠ 0
  | [], _ => by simp [scanUcs2]
  | [b], _ => by simp [scanUcs2]
  | b0 :: b1 :: rest, hb => by
    have hb0 : b0 < 256 := hb _ (by simp)
    have hb1 : b1 < 256 := hb _ (by simp)
    by_cases h : b0 ||| (b1 <<< 8) = 0
    · simp [scanUcs2, h]
    · have ih := scanUcs2_wf rest (fun b hbm => hb b (by simp [hbm]))
      intro ch hch
      simp [scanUcs2, h] at hch
      rcases hch with hch | hch
      · subst hch
        rw [lor_shl8 _ _ hb0]
        constructor
        · omega
        · rw [lor_shl8 _ _ hb0] at h; omega
      · exact ih ch hch

/-- Without a terminator the scan returns every complete code unit and
consumes every complete pair. -/
theorem scanUcs2_noTerm : ∀ l : List Nat, hasTerminator l = false →
    scanUcs2 l = (bytesToU16LE l, 2 * (l.length / 2))
  | [], _ => by simp [scanUcs2, bytesToU16LE]
  | [b], _ => by simp [scanUcs2, bytesToU16LE]
  | b0 :: b1 :: rest, ht => by
    have h : ¬ (b0 ||| (b1 <<< 8) = 0) := by
      intro h0; simp [hasTerminator, h0] at ht
    have ht' : hasTerminator rest = false := by
      simpa [hasTerminator, h] using ht
    have ih := scanUcs2_noTerm rest ht'
    simp [scanUcs2, h, bytesToU16LE, ih]
    omega

theorem bytesToU16LE_length : ∀ l : List Nat,
    (bytesToU16LE l).length = l.length / 2
  | [] => by simp [bytesToU16LE]
  | [b] => by simp [bytesToU16LE]
  | b0 :: b1 :: rest => by
    have ih := bytesToU16LE_length rest
    simp [bytesToU16LE, ih]
    omega

/-- Element `i` of the 16-bit reinterpretation is built from bytes `2i`
and `2i+1` in little-endian order. -/
theorem bytesToU16LE_getElem? : ∀ (l : List Nat), (∀ b ∈ l, b < 256) →
    ∀ (i b0 b1 : Nat), l[2 * i]? = some b0 → l[2 * i + 1]? = some b1 →
    (bytesToU16LE l)[i]? = some (b0 + 256 * b1)
  | [], _, i, b0, b1, h0, _ => by simp at h0
  | [b], _, i, b0, b1, h0, h1 => by
    match i with
    | 0 => simp at h1
    | i + 1 =>
      have h2 : 2 * (i + 1) = (2 * i + 1) + 1 := by ring
      rw [h2] at h0
      simp at h0
  | a0 :: a1 :: rest, hb, i, b0, b1, h0, h1 => by
    match i with
    | 0 =>
      simp at h0 h1
      have ha0 : a0 < 256 := hb _ (by simp)
      subst h0; subst h1
      simp [bytesToU16LE, lor_shl8 _ _ ha0]
    | i + 1 =>
      have h2 : 2 * (i + 1) = (2 * i + 1) + 1 := by ring
      have h3 : 2 * (i + 1) + 1 = (2 * i + 1 + 1) + 1 := by ring
      rw [h2] at h0
      rw [h3] at h1
      simp only [List.getElem?_cons_succ] at h0 h1
      have ih := bytesToU16LE_getElem? rest (fun b hbm => hb b (by simp [hbm]))
        i b0 b1 h0 h1
      simpa [bytesToU16LE] using ih

/-! ### Unfolding the codec on a buffer with an explicit header -/

theorem ReadUcs2String_six (b0 b1 b2 b3 b4 b5 : Nat) (rest : List Nat) :
    ReadUcs2String (b0 :: b1 :: b2 :: b3 :: b4 :: b5 :: rest) 6 =
      ((scanUcs2 rest).1,
        if (6 + (scanUcs2 rest).2) % 2 = 1 then 6 + (scanUcs2 rest).2 + 1
        else 6 + (scanUcs2 rest).2) := rfl

/-- The scan consumes an even byte count and the header is 6 bytes, so the
defensive realignment step never fires. -/
theorem ReadUcs2String_six_even (b0 b1 b2 b3 b4 b5 : Nat) (rest : List Nat) :
    ReadUcs2String (b0 :: b1 :: b2 :: b3 :: b4 :: b5 :: rest) 6 =
      ((scanUcs2 rest).1, 6 + (scanUcs2 rest).2) := by
  rw [ReadUcs2String_six]
  have he := (scanUcs2_le_even rest).2
  rw [if_neg (by omega)]

theorem ParseLoadOption_cons (b0 b1 b2 b3 b4 b5 : Nat) (rest : List Nat) :
    ParseLoadOption (b0 :: b1 :: b2 :: b3 :: b4 :: b5 :: rest) =
      (if (ReadUcs2String (b0 :: b1 :: b2 :: b3 :: b4 :: b5 :: rest) 6).2 +
          (b4 + 256 * b5) ≤ (b0 :: b1 :: b2 :: b3 :: b4 :: b5 :: rest).length then
        some { Attributes := b0 + 256 * b1 + 65536 * b2 + 16777216 * b3,
               FilePathListLength := b4 + 256 * b5,
               Description := (ReadUcs2String (b0 :: b1 :: b2 :: b3 :: b4 :: b5 :: rest) 6).1,
               DevicePath :=
                 ((b0 :: b1 :: b2 :: b3 :: b4 :: b5 :: rest).drop
                   (ReadUcs2String (b0 :: b1 :: b2 :: b3 :: b4 :: b5 :: rest) 6).2).take
                   (b4 + 256 * b5),
               OptionalData :=
                 (b0 :: b1 :: b2 :: b3 :: b4 :: b5 :: rest).drop
                   ((ReadUcs2String (b0 :: b1 :: b2 :: b3 :: b4 :: b5 :: rest) 6).2 +
                     (b4 + 256 * b5)) }
      else none) := rfl

/-- Core round-trip: decoding the encoding of any record with 16-bit
nonzero description units, a 32-bit attribute value and a device path
shorter than 65536 bytes recovers the record (with the length field
re-derived from the device path). -/
theorem BuildParse_core (x : ParsedLoadOption) (hA : x.Attributes < 4294967296)
    (hd : ∀ ch ∈ x.Description, ch < 65536 ∧ ch ≠ 0)
    (hdp : x.DevicePath.length < 65536) :
    ParseLoadOption (BuildLoadOption x) =
      some { Attributes := x.Attributes, FilePathListLength := x.DevicePath.length,
             Description := x.Description, DevicePath := x.DevicePath,
             OptionalData := x.OptionalData } := by
  obtain ⟨A, F, D, P, O⟩ := x
  simp only at hA hd hdp
  have hbuild : BuildLoadOption ⟨A, F, D, P, O⟩ =
      A % 256 :: A / 256 % 256 :: A / 65536 % 256 :: A / 16777216 % 256 ::
      P.length % 256 :: P.length / 256 % 256 ::
      (encodeDesc D ++ (0 :: 0 :: (P ++ O))) := by
    simp [BuildLoadOption, push32, push16]
  rw [hbuild, ParseLoadOption_cons]
  rw [ReadUcs2String_six_even]
  rw [scanUcs2_encodeDesc D (P ++ O) hd]
  have hfp : P.length % 256 + 256 * (P.length / 256 % 256) = P.length := by omega
  have hlen : (A % 256 :: A / 256 % 256 :: A / 65536 % 256 :: A / 16777216 % 256 ::
      P.length % 256 :: P.length / 256 % 256 ::
      (encodeDesc D ++ (0 :: 0 :: (P ++ O)))).length =
      8 + 2 * D.length + P.length + O.length := by
    simp [List.length_append, encodeDesc_length]
    omega
  rw [hfp, hlen, if_pos (by omega)]
  have hsplit : (A % 256 :: A / 256 % 256 :: A / 65536 % 256 :: A / 16777216 % 256 ::
      P.length % 256 :: P.length / 256 % 256 ::
      (encodeDesc D ++ (0 :: 0 :: (P ++ O)))) =
      ((A % 256 :: A / 256 % 256 :: A / 65536 % 256 :: A / 16777216 % 256 ::
        P.length % 256 :: P.length / 256 % 256 :: (encodeDesc D ++ [0, 0])) ++ (P ++ O)) := by
    simp
  have hprelen : (A % 256 :: A / 256 % 256 :: A / 65536 % 256 :: A / 16777216 % 256 ::
      P.length % 256 :: P.length / 256 % 256 :: (encodeDesc D ++ [0, 0])).length =
      6 + (2 * D.length + 2) := by
    simp [encodeDesc_length]
    omega
  have hdrop1 : (A % 256 :: A / 256 % 256 :: A / 65536 % 256 :: A / 16777216 % 256 ::
      P.length % 256 :: P.length / 256 % 256 ::
      (encodeDesc D ++ (0 :: 0 :: (P ++ O)))).drop (6 + (2 * D.length + 2)) = P ++ O := by
    rw [hsplit]
    exact List.drop_left' hprelen
  have hdrop2 : (A % 256 :: A / 256 % 256 :: A / 65536 % 256 :: A / 16777216 % 256 ::
      P.length % 256 :: P.length / 256 % 256 ::
      (encodeDesc D ++ (0 :: 0 :: (P ++ O)))).drop (6 + (2 * D.length + 2) + P.length) =
      O := by
    rw [hsplit]
    have h2 : ((A % 256 :: A / 256 % 256 :: A / 65536 % 256 :: A / 16777216 % 256 ::
        P.length % 256 :: P.length / 256 % 256 :: (encodeDesc D ++ [0, 0])) ++ (P ++ O)) =
        (((A % 256 :: A / 256 % 256 :: A / 65536 % 256 :: A / 16777216 % 256 ::
        P.length % 256 :: P.length / 256 % 256 :: (encodeDesc D ++ [0, 0])) ++ P) ++ O) := by
      simp
    rw [h2]
    apply List.drop_left'
    simp [encodeDesc_length]
    omega
  rw [hdrop1, hdrop2]
  have htake : (P ++ O).take P.length = P := List.take_left P O
  rw [htake]
  have hattr : A % 256 + 256 * (A / 256 % 256) + 65536 * (A / 65536 % 256) +
      16777216 * (A / 16777216 % 256) = A := by omega
  simp [hattr]

/-- A successful parse forces at least six bytes of input. -/
theorem ParseLoadOption_shape (buf : List Nat) (p : ParsedLoadOption)
    (hp : ParseLoadOption buf = some p) :
    ∃ b0 b1 b2 b3 b4 b5 rest, buf = b0 :: b1 :: b2 :: b3 :: b4 :: b5 :: rest := by
  rcases buf with _ | ⟨b0, _ | ⟨b1, _ | ⟨b2, _ | ⟨b3, _ | ⟨b4, _ | ⟨b5, rest⟩⟩⟩⟩⟩⟩
  · exact Option.noConfusion hp
  · exact Option.noConfusion hp
  · exact Option.noConfusion hp
  · exact Option.noConfusion hp
  · exact Option.noConfusion hp
  · exact Option.noConfusion hp
  · exact ⟨b0, b1, b2, b3, b4, b5, rest, rfl⟩

/-- Typing facts carried by any successfully decoded record: the attribute
word is 32-bit, every description unit is a nonzero 16-bit value, and the
device path is shorter than 65536 bytes. -/
theorem ParseLoadOption_wf (buf : List Nat) (p : ParsedLoadOption)
    (hb : ∀ b ∈ buf, b < 256) (hp : ParseLoadOption buf = some p) :
    p.Attributes < 4294967296 ∧ (∀ ch ∈ p.Description, ch < 65536 ∧ ch ≠ 0) ∧
    p.DevicePath.length < 65536 := by
  obtain ⟨b0, b1, b2, b3, b4, b5, rest, rfl⟩ := ParseLoadOption_shape _ _ hp
  rw [ParseLoadOption_cons, ReadUcs2String_six_even] at hp
  have hb0 : b0 < 256 := hb _ (by simp)
  have hb1 : b1 < 256 := hb _ (by simp)
  have hb2 : b2 < 256 := hb _ (by simp)
  have hb3 : b3 < 256 := hb _ (by simp)
  have hb4 : b4 < 256 := hb _ (by simp)
  have hb5 : b5 < 256 := hb _ (by simp)
  have hbrest : ∀ b ∈ rest, b < 256 := fun b hbm => hb b (by simp [hbm])
  split at hp
  · have hfields := Option.some.inj hp
    have h1 : p.Attributes = b0 + 256 * b1 + 65536 * b2 + 16777216 * b3 := by
      rw [← hfields]
    have h2 : p.Description = (scanUcs2 rest).1 := by
      rw [← hfields]
    have h3 : p.DevicePath =
        ((b0 :: b1 :: b2 :: b3 :: b4 :: b5 :: rest).drop
          (6 + (scanUcs2 rest).2)).take (b4 + 256 * b5) := by
      rw [← hfields]
    refine ⟨?_, ?_, ?_⟩
    · rw [h1]; omega
    · rw [h2]; exact scanUcs2_wf rest hbrest
    · rw [h3, List.length_take]; omega
  · exact Option.noConfusion hp

/-- Re-encoding a successfully decoded buffer whose description scan ended
at a zero terminator reproduces the buffer byte for byte.  (The length
field written back is the decoded device path's length, which a successful
parse forces to equal the declared length.) -/
theorem ParseBuild_core (buf : List Nat) (p : ParsedLoadOption)
    (hb : ∀ b ∈ buf, b < 256)
    (ht : hasTerminator (buf.drop 6) = true)
    (hp : ParseLoadOption buf = some p) :
    BuildLoadOption p = buf := by
  obtain ⟨b0, b1, b2, b3, b4, b5, rest, rfl⟩ := ParseLoadOption_shape _ _ hp
  rw [ParseLoadOption_cons, ReadUcs2String_six_even] at hp
  have hdrop6 : (b0 :: b1 :: b2 :: b3 :: b4 :: b5 :: rest).drop 6 = rest := rfl
  rw [hdrop6] at ht
  have hb0 : b0 < 256 := hb _ (by simp)
  have hb1 : b1 < 256 := hb _ (by simp)
  have hb2 : b2 < 256 := hb _ (by simp)
  have hb3 : b3 < 256 := hb _ (by simp)
  have hb4 : b4 < 256 := hb _ (by simp)
  have hb5 : b5 < 256 := hb _ (by simp)
  have hbrest : ∀ b ∈ rest, b < 256 := fun b hbm => hb b (by simp [hbm])
  have hre := scanUcs2_reencode rest hbrest ht
  have hle := scanUcs2_le_even rest
  split at hp
  · rename_i hcond
    obtain rfl : _ = p := Option.some.inj hp
    have hdropn : (b0 :: b1 :: b2 :: b3 :: b4 :: b5 :: rest).drop
        (6 + (scanUcs2 rest).2) = rest.drop (scanUcs2 rest).2 := by
      rw [← List.drop_drop, hdrop6]
    have hcond' : 6 + (scanUcs2 rest).2 + (b4 + 256 * b5) ≤ 6 + rest.length := by
      simp at hcond
      omega
    have hDPlen : (((b0 :: b1 :: b2 :: b3 :: b4 :: b5 :: rest).drop
        (6 + (scanUcs2 rest).2)).take (b4 + 256 * b5)).length = b4 + 256 * b5 := by
      rw [hdropn, List.length_take, List.length_drop]
      omega
    have hpush32 : push32 (b0 + 256 * b1 + 65536 * b2 + 16777216 * b3) =
        [b0, b1, b2, b3] := by
      simp only [push32, List.cons.injEq, and_true]
      omega
    have hpush16 : push16 (b4 + 256 * b5) = [b4, b5] := by
      simp only [push16, List.cons.injEq, and_true]
      omega
    have hOD : (b0 :: b1 :: b2 :: b3 :: b4 :: b5 :: rest).drop
        (6 + (scanUcs2 rest).2 + (b4 + 256 * b5)) =
        (rest.drop (scanUcs2 rest).2).drop (b4 + 256 * b5) := by
      rw [← List.drop_drop, hdropn]
    simp only [BuildLoadOption]
    rw [hDPlen, hpush16, hpush32, hdropn, hOD]
    have htd : (rest.drop (scanUcs2 rest).2).take (b4 + 256 * b5) ++
        (rest.drop (scanUcs2 rest).2).drop (b4 + 256 * b5) =
        rest.drop (scanUcs2 rest).2 := List.take_append_drop _ _
    show [b0, b1, b2, b3] ++ [b4, b5] ++ encodeDesc (scanUcs2 rest).1 ++ push16 0 ++ _ ++ _ = _
    simp only [push16, List.append_assoc, List.cons_append, List.nil_append,
      Nat.zero_mod, Nat.zero_div]
    rw [htd, hre]
  · exact Option.noConfusion hp


/-! ### Claim theorems -/

/-- C1 (amended): for every LoadOption whose description is non-empty and
contains no zero code unit (with 16-bit units and a 32-bit attribute word,
as the C++ field types guarantee), with a device path of fewer than 65536
bytes and arbitrary optional-data bytes, decoding the encoding succeeds
and recovers attributes, description, device path and optional data. -/
theorem c1_roundtrip (x : ParsedLoadOption) (hA : x.Attributes < 4294967296)
    (_hne : x.Description ≠ [])
    (hd : ∀ ch ∈ x.Description, ch < 65536 ∧ ch ≠ 0)
    (hdp : x.DevicePath.length < 65536) :
    ParseLoadOption (BuildLoadOption x) =
      some { Attributes := x.Attributes, FilePathListLength := x.DevicePath.length,
             Description := x.Description, DevicePath := x.DevicePath,
             OptionalData := x.OptionalData } :=
  BuildParse_core x hA hd hdp

theorem c1_roundtrip_witness :
    ParseLoadOption (BuildLoadOption ⟨9, 0, [72, 105], [1, 2, 3], [9, 9]⟩) =
      some ⟨9, 3, [72, 105], [1, 2, 3], [9, 9]⟩ :=
  c1_roundtrip ⟨9, 0, [72, 105], [1, 2, 3], [9, 9]⟩
    (by decide) (by decide) (by decide) (by decide)

/-- C1 counterexample: with a 65536-byte device path (non-empty
description `[65]`, no zero unit), the encoder's `static_cast<UINT16>`
wraps the length field to 0, and decoding the encoding returns an empty
device path instead of the original — the round trip does not hold for
arbitrary device-path byte counts. -/
theorem c1_counterexample :
    (ParseLoadOption (BuildLoadOption ⟨0, 0, [65], List.replicate 65536 0, []⟩)).map
      ParsedLoadOption.DevicePath = some [] ∧
    ([] : List Nat) ≠ List.replicate 65536 0 := by
  constructor
  · obtain ⟨R, hrep⟩ : ∃ R, List.replicate 65536 (0 : Nat) = R := ⟨_, rfl⟩
    have hRlen : R.length = 65536 := by rw [← hrep, List.length_replicate]
    rw [hrep]
    have hbuild : BuildLoadOption ⟨0, 0, [65], R, []⟩ =
        0 :: 0 :: 0 :: 0 :: 0 :: 0 :: 65 :: 0 :: 0 :: 0 :: R := by
      show push32 0 ++ push16 R.length ++ encodeDesc [65] ++
        push16 0 ++ R ++ [] = _
      rw [hRlen]
      norm_num [push32, push16, encodeDesc_cons, encodeDesc_nil]
    have h1 : (65 : Nat) ||| (0 <<< 8) = 65 := by decide
    have h2 : (0 : Nat) ||| (0 <<< 8) = 0 := by decide
    have hscan : scanUcs2 (65 :: 0 :: 0 :: 0 :: R) = ([65], 4) := by
      simp [scanUcs2, h1, h2]
    rw [hbuild, ParseLoadOption_cons, ReadUcs2String_six_even, hscan]
    simp [hRlen]
  · intro h
    have h2 := congrArg List.length h
    rw [List.length_replicate] at h2
    simp at h2

/-- C2: for every well-formed input — bytes, at least the 6-byte header
(implied by a successful parse), a zero-terminated description starting
at offset 6, a declared device-path length consistent with the remaining
bytes (the parse success condition) — encoding the decoded record
reproduces the buffer byte for byte.  (The re-derived length field equals
the declared one because the parse sliced exactly that many bytes.) -/
theorem c2_encode_decode (buf : List Nat) (p : ParsedLoadOption)
    (hb : ∀ b ∈ buf, b < 256)
    (ht : hasTerminator (buf.drop 6) = true)
    (hp : ParseLoadOption buf = some p) :
    BuildLoadOption p = buf :=
  ParseBuild_core buf p hb ht hp

theorem c2_encode_decode_witness :
    BuildLoadOption ⟨9, 2, [65], [7, 8], [5]⟩ =
      [9, 0, 0, 0, 2, 0, 65, 0, 0, 0, 7, 8, 5] :=
  c2_encode_decode [9, 0, 0, 0, 2, 0, 65, 0, 0, 0, 7, 8, 5] ⟨9, 2, [65], [7, 8], [5]⟩
    (by decide) (by decide) (by decide)

/-- C3 (amended): decoding fails on a buffer shorter than the 6-byte
header, and on a buffer whose declared 16-bit device-path length exceeds
the bytes remaining after the (aligned) end of the description — but both
failures are the same single failure result (`ParseLoadOption` returns a
bare `bool` in the source), so the caller cannot distinguish the two
kinds. -/
theorem c3_decode_failures (buf : List Nat) :
    (buf.length < 6 → ParseLoadOption buf = none) ∧
    (∀ b0 b1 b2 b3 b4 b5 rest, buf = b0 :: b1 :: b2 :: b3 :: b4 :: b5 :: rest →
      buf.length < (ReadUcs2String buf 6).2 + (b4 + 256 * b5) →
      ParseLoadOption buf = none) := by
  constructor
  · intro hlen
    rcases buf with _ | ⟨b0, _ | ⟨b1, _ | ⟨b2, _ | ⟨b3, _ | ⟨b4, _ | ⟨b5, rest⟩⟩⟩⟩⟩⟩ <;>
      first
        | rfl
        | (simp at hlen; exact absurd hlen (by omega))
  · intro b0 b1 b2 b3 b4 b5 rest hbuf hover
    subst hbuf
    rw [ParseLoadOption_cons]
    rw [if_neg (by omega)]

theorem c3_decode_failures_witness :
    ParseLoadOption [1, 2] = none ∧ ParseLoadOption [0, 0, 0, 0, 1, 0] = none :=
  ⟨(c3_decode_failures [1, 2]).1 (by decide),
   (c3_decode_failures [0, 0, 0, 0, 1, 0]).2 0 0 0 0 1 0 [] rfl (by decide)⟩

/-- C3 counterexample: a buffer failing the header-size check and a
buffer failing the device-path-length check produce identical decode
results, so the two failure kinds are not distinguishable by the
caller. -/
theorem c3_counterexample :
    ([] : List Nat).length < 6 ∧
    6 ≤ ([0, 0, 0, 0, 1, 0] : List Nat).length ∧
    ([0, 0, 0, 0, 1, 0] : List Nat).length <
      (ReadUcs2String [0, 0, 0, 0, 1, 0] 6).2 + (1 + 256 * 0) ∧
    ParseLoadOption [] = ParseLoadOption [0, 0, 0, 0, 1, 0] := by
  refine ⟨by decide, by decide, by decide, by decide⟩

theorem findFirstIdx_not_mem (l : List Nat) (t : Nat) (h : t ∉ l) :
    findFirstIdx l t = none := by
  induction l with
  | nil => rfl
  | cons a rest ih =>
    have ha : ¬ (a = t) := by
      intro he; exact h (by simp [he])
    simp [findFirstIdx, ha, ih (fun hm => h (by simp [hm]))]

theorem findFirstIdx_mem (l : List Nat) (t : Nat) (h : t ∈ l) :
    ∃ i, findFirstIdx l t = some i ∧
      l.take i ++ l.drop (i + 1) = l.erase t := by
  induction l with
  | nil => simp at h
  | cons a rest ih =>
    by_cases ha : a = t
    · subst ha
      exact ⟨0, by simp [findFirstIdx], by simp [List.erase_cons_head]⟩
    · have hm : t ∈ rest := by
        rcases List.mem_cons.mp h with h' | h'
        · exact absurd h'.symm ha
        · exact h'
      obtain ⟨i, hfi, heq⟩ := ih hm
      refine ⟨i + 1, ?_, ?_⟩
      · simp [findFirstIdx, ha, hfi]
      · have he : (a :: rest).erase t = a :: rest.erase t :=
          List.erase_cons_tail (by simp [ha])
        simp [List.take_succ_cons, List.drop_succ_cons, he, heq]

/-- C4: for every stored (non-empty) boot order and parseable id,
`cmd_select` exits 3 without writing when the id is absent from the order;
when it is present, the single write moves the first occurrence of the id
to the front and keeps every other element in its previous relative order
(the written list is the id followed by the order with that occurrence
removed). -/
theorem c4_select (order : List Nat) (tok : List Char) (target : Nat)
    (hid : parseBootId tok = some target) (h0 : order ≠ []) :
    (target ∉ order → cmd_select order tok = .error 3) ∧
    (target ∈ order → cmd_select order tok = .ok (target :: order.erase target)) := by
  constructor
  · intro hmem
    simp [cmd_select, h0, hid, findFirstIdx_not_mem order target hmem]
  · intro hmem
    obtain ⟨i, hfi, heq⟩ := findFirstIdx_mem order target hmem
    simp [cmd_select, h0, hid, hfi, heq]

theorem c4_select_witness :
    cmd_select [1, 2, 3] ['0', '0', '0', '2'] = .ok [2, 1, 3] ∧
    cmd_select [1, 2, 3] ['0', '0', '9', '9'] = .error 3 := by
  constructor
  · have h := (c4_select [1, 2, 3] ['0', '0', '0', '2'] 2 (by decide) (by decide)).2
      (by decide)
    rw [h]
    exact rfl
  · exact (c4_select [1, 2, 3] ['0', '0', '9', '9'] 153 (by decide) (by decide)).1
      (by decide)

theorem parseOrderToks_has_bad (toks : List (List Char)) (t : List Char)
    (hmem : t ∈ toks) (hbad : parseOrderTok t = none) :
    parseOrderToks toks = none := by
  induction toks with
  | nil => simp at hmem
  | cons a ts ih =>
    rcases List.mem_cons.mp hmem with rfl | hmem'
    · simp [parseOrderToks, hbad]
    · cases ha : parseOrderTok a with
      | none => simp [parseOrderToks, ha]
      | some v => simp [parseOrderToks, ha, ih hmem']

theorem parseOrderToks_index (toks : List (List Char)) (vs : List Nat)
    (h : parseOrderToks toks = some vs) :
    vs.length = toks.length ∧
    ∀ i (h1 : i < toks.length) (h2 : i < vs.length),
      parseOrderTok (toks.get ⟨i, h1⟩) = some (vs.get ⟨i, h2⟩) := by
  induction toks generalizing vs with
  | nil =>
    simp [parseOrderToks] at h
    subst h
    exact ⟨rfl, fun i h1 => absurd h1 (by simp)⟩
  | cons t ts ih =>
    cases hp : parseOrderTok t with
    | none => simp [parseOrderToks, hp] at h
    | some v =>
      cases hrec : parseOrderToks ts with
      | none => simp [parseOrderToks, hp, hrec] at h
      | some ws =>
        simp [parseOrderToks, hp, hrec] at h
        subst h
        obtain ⟨hlen, hidx⟩ := ih ws hrec
        refine ⟨by simp [hlen], ?_⟩
        intro i h1 h2
        match i with
        | 0 => exact hp
        | i + 1 => exact hidx i (by simpa using h1) (by simpa using h2)

/-- C5: `cmd_order_set` on a token list: an empty list, or any token that
fails the (whitespace-stripped, prefix-stripped, hex, 16-bit-range) parse,
makes the whole operation exit 2 with no write; when every token parses,
the single write is exactly the parsed values, position by position — the
same length and the same order as the tokens, neither deduplicated nor
sorted. -/
theorem c5_reorder (toks : List (List Char)) :
    (toks = [] → cmd_order_set toks = .error 2) ∧
    ((∃ t ∈ toks, parseOrderTok t = none) → cmd_order_set toks = .error 2) ∧
    (∀ vs, parseOrderToks toks = some vs → toks ≠ [] →
      cmd_order_set toks = .ok vs ∧ vs.length = toks.length ∧
      ∀ i (h1 : i < toks.length) (h2 : i < vs.length),
        parseOrderTok (toks.get ⟨i, h1⟩) = some (vs.get ⟨i, h2⟩)) := by
  refine ⟨?_, ?_, ?_⟩
  · rintro rfl; rfl
  · rintro ⟨t, hmem, hbad⟩
    simp [cmd_order_set, parseOrderToks_has_bad toks t hmem hbad]
  · intro vs hvs hne
    obtain ⟨hlen, hidx⟩ := parseOrderToks_index toks vs hvs
    refine ⟨?_, hlen, hidx⟩
    have hvne : ¬ (vs = []) := by
      intro h
      subst h
      exact hne (List.length_eq_zero.mp hlen.symm)
    simp [cmd_order_set, hvs, hvne]

theorem c5_reorder_witness :
    cmd_order_set [['0', '0', '0', '4'], ['0', '0', '0', '1'], [],
      ['0', '0', '0', '2']] = .error 2 ∧
    cmd_order_set [['0', '0', '0', '4'], ['0', '0', '0', '1']] = .ok [4, 1] :=
  ⟨(c5_reorder _).2.1 ⟨[], by decide, by decide⟩,
   ((c5_reorder _).2.2 [4, 1] (by decide) (by decide)).1⟩

theorem setActiveAttrs_testBit_zero (a : Nat) (e : Bool) :
    (setActiveAttrs a e).testBit 0 = e := by
  cases e
  · have hm : (4294967294 : Nat).testBit 0 = false := by decide
    simp [setActiveAttrs, Nat.testBit_and, hm]
  · have hm : (1 : Nat).testBit 0 = true := by decide
    simp [setActiveAttrs, LOAD_OPTION_ACTIVE, Nat.testBit_or, hm]

theorem setActiveAttrs_testBit_ne (a : Nat) (e : Bool) (ha : a < 4294967296)
    (i : Nat) (hi : i ≠ 0) :
    (setActiveAttrs a e).testBit i = a.testBit i := by
  cases e
  · simp only [setActiveAttrs, Bool.false_eq_true, if_neg, ite_false]
    rw [Nat.testBit_and]
    by_cases h32 : i < 32
    · have h1 : 1 ≤ i := by omega
      have hm : (4294967294 : Nat).testBit i = true := by
        interval_cases i <;> decide
      rw [hm, Bool.and_true]
    · have h2 : (4294967296 : Nat) = 2 ^ 32 := by norm_num
      have hx : a.testBit i = false :=
        Nat.testBit_lt_two_pow
          (lt_of_lt_of_le (h2 ▸ ha) (Nat.pow_le_pow_right (by omega) (by omega)))
      rw [hx]
      have hlt : (4294967294 : Nat) < 2 ^ i :=
        calc (4294967294 : Nat) < 2 ^ 32 := by norm_num
          _ ≤ 2 ^ i := Nat.pow_le_pow_right (by omega) (by omega)
      have hm : (4294967294 : Nat).testBit i = false := Nat.testBit_lt_two_pow hlt
      rw [hm]
      rfl
  · simp only [setActiveAttrs, if_pos, ite_true, LOAD_OPTION_ACTIVE]
    rw [Nat.testBit_or]
    have h1 : (1 : Nat).testBit i = false := by
      obtain ⟨j, rfl⟩ : ∃ j, i = j + 1 := ⟨i - 1, by omega⟩
      rw [Nat.testBit_succ]
      norm_num
    rw [h1, Bool.or_false]

/-- C6: for every existing, decodable entry and any parseable id token,
`cmd_enable_disable` writes back an entry whose description, device path
and optional data are the decoded ones unchanged, and whose attribute word
has bit 0 set (enable) or cleared (disable) while every other bit keeps
its previous value; on the claim's example, attributes 9 (`0x9`) become 8
(`0x8`) on disable and 9 again on re-enable. -/
theorem c6_set_active (entryData : List Nat) (tok : List Char) (p : ParsedLoadOption)
    (hb : ∀ b ∈ entryData, b < 256)
    (hp : ParseLoadOption entryData = some p)
    (hid : ∃ n, parseBootId tok = some n) :
    (∀ e : Bool, ∃ q,
      cmd_enable_disable entryData tok e = .ok (BuildLoadOption q) ∧
      q.Description = p.Description ∧ q.DevicePath = p.DevicePath ∧
      q.OptionalData = p.OptionalData ∧
      q.Attributes.testBit 0 = e ∧
      (∀ i, i ≠ 0 → q.Attributes.testBit i = p.Attributes.testBit i)) ∧
    setActiveAttrs 9 false = 8 ∧ setActiveAttrs (setActiveAttrs 9 false) true = 9 := by
  refine ⟨?_, by decide, by decide⟩
  intro e
  obtain ⟨n, hn⟩ := hid
  have hne : ¬ (entryData = []) := by
    intro h
    subst h
    exact Option.noConfusion hp
  refine ⟨{ p with Attributes := setActiveAttrs p.Attributes e }, ?_, rfl, rfl, rfl,
    ?_, ?_⟩
  · simp [cmd_enable_disable, hn, hne, hp]
  · exact setActiveAttrs_testBit_zero p.Attributes e
  · intro i hi
    exact setActiveAttrs_testBit_ne p.Attributes e
      (ParseLoadOption_wf entryData p hb hp).1 i hi

theorem c6_set_active_witness :
    ((∀ e : Bool, ∃ q,
        cmd_enable_disable [9, 0, 0, 0, 0, 0, 65, 0, 0, 0] ['0', '0', '0', '1'] e =
          .ok (BuildLoadOption q) ∧
        q.Description = [65] ∧ q.DevicePath = [] ∧ q.OptionalData = [] ∧
        q.Attributes.testBit 0 = e ∧
        (∀ i, i ≠ 0 → q.Attributes.testBit i = Nat.testBit 9 i)) ∧
      setActiveAttrs 9 false = 8 ∧ setActiveAttrs (setActiveAttrs 9 false) true = 9) :=
  c6_set_active [9, 0, 0, 0, 0, 0, 65, 0, 0, 0] ['0', '0', '0', '1']
    ⟨9, 0, [65], [], []⟩ (by decide) (by decide) ⟨1, by decide⟩

/-- C7: for every existing, decodable entry, parseable id token and new
label (16-bit nonzero units, as any command-line string yields),
`cmd_rename` writes back an entry that decodes to the old record with only
the description replaced: attribute bits, device-path bytes and
optional-data bytes are identical before and after. -/
theorem c7_rename (entryData : List Nat) (tok : List Char) (p : ParsedLoadOption)
    (newLabel : List Nat)
    (hb : ∀ b ∈ entryData, b < 256)
    (hp : ParseLoadOption entryData = some p)
    (hid : ∃ n, parseBootId tok = some n)
    (hl : ∀ ch ∈ newLabel, ch < 65536 ∧ ch ≠ 0) :
    cmd_rename entryData tok newLabel =
      .ok (BuildLoadOption { p with Description := newLabel }) ∧
    ParseLoadOption (BuildLoadOption { p with Description := newLabel }) =
      some { Attributes := p.Attributes, FilePathListLength := p.DevicePath.length,
             Description := newLabel, DevicePath := p.DevicePath,
             OptionalData := p.OptionalData } := by
  obtain ⟨hA, hdesc, hdp⟩ := ParseLoadOption_wf entryData p hb hp
  obtain ⟨n, hn⟩ := hid
  have hne : ¬ (entryData = []) := by
    intro h
    subst h
    exact Option.noConfusion hp
  constructor
  · simp [cmd_rename, hn, hne, hp]
  · exact BuildParse_core { p with Description := newLabel } hA hl hdp

theorem c7_rename_witness :
    cmd_rename [9, 0, 0, 0, 2, 0, 65, 0, 0, 0, 7, 8, 5] ['0', '0', '0', '1'] [66] =
      .ok (BuildLoadOption ⟨9, 2, [66], [7, 8], [5]⟩) ∧
    ParseLoadOption (BuildLoadOption ⟨9, 2, [66], [7, 8], [5]⟩) =
      some ⟨9, 2, [66], [7, 8], [5]⟩ :=
  c7_rename [9, 0, 0, 0, 2, 0, 65, 0, 0, 0, 7, 8, 5] ['0', '0', '0', '1']
    ⟨9, 2, [65], [7, 8], [5]⟩ [66] (by decide) (by decide) ⟨1, by decide⟩ (by decide)

/-- C8 (amended): for any token that the (case-sensitive) stripping leaves
unchanged, prepending the exact literal `Boot` parses to the same
identifier as the bare token; stripping is not case-insensitive — other
casings of the prefix are not stripped (see the counterexample). -/
theorem c8_boot_id_forms (s : List Char) (hs : stripBoot s = s) :
    parseBootId ('B' :: 'o' :: 'o' :: 't' :: s) = parseBootId s := by
  have h1 : stripBoot ('B' :: 'o' :: 'o' :: 't' :: s) = s := rfl
  unfold parseBootId
  rw [h1, hs]

theorem c8_boot_id_forms_witness :
    parseBootId ('B' :: 'o' :: 'o' :: 't' :: ['0', '0', '0', '1']) =
      parseBootId ['0', '0', '0', '1'] :=
  c8_boot_id_forms ['0', '0', '0', '1'] (by decide)

/-- C8 counterexample: the prefix test `tok.rfind(L"Boot", 0) == 0` is
case-sensitive, and an unstripped token still parses because a leading
`b`/`B` is a valid hex digit: `boot0001` and `BOOT0001` parse to `0xB`
(11), not to 1 as `Boot0001` and `0001` do — so the three casings do not
parse equal. -/
theorem c8_counterexample :
    parseBootId ['b', 'o', 'o', 't', '0', '0', '0', '1'] = some 11 ∧
    parseBootId ['B', 'O', 'O', 'T', '0', '0', '0', '1'] = some 11 ∧
    parseBootId ['B', 'o', 'o', 't', '0', '0', '0', '1'] = some 1 ∧
    parseBootId ['0', '0', '0', '1'] = some 1 ∧ (11 : Nat) ≠ 1 := by decide

/-- C9: `GetBootOrder` on the raw bytes of the order variable (absent
reads as the empty vector, whose length is even) returns the empty
sequence when the byte count is odd, and otherwise a sequence of exactly
half as many elements where element `i` is bytes `2i` and `2i+1` combined
little-endian, preserving order. -/
theorem c9_boot_order (raw : List Nat) (hb : ∀ b ∈ raw, b < 256) :
    (raw.length % 2 = 1 → GetBootOrder raw = []) ∧
    (raw.length % 2 = 0 →
      (GetBootOrder raw).length = raw.length / 2 ∧
      ∀ i b0 b1, raw[2 * i]? = some b0 → raw[2 * i + 1]? = some b1 →
        (GetBootOrder raw)[i]? = some (b0 + 256 * b1)) := by
  constructor
  · intro h
    simp [GetBootOrder, h]
  · intro h
    have hne : ¬ (raw.length % 2 = 1) := by omega
    constructor
    · simp [GetBootOrder, hne, bytesToU16LE_length]
    · intro i b0 b1 h0 h1
      unfold GetBootOrder
      rw [if_neg hne]
      exact bytesToU16LE_getElem? raw hb i b0 b1 h0 h1

theorem c9_boot_order_witness :
    GetBootOrder [1, 2, 3] = [] ∧
    (GetBootOrder [1, 2, 3, 4]).length = 2 ∧
    (GetBootOrder [1, 2, 3, 4])[0]? = some 513 ∧
    (GetBootOrder [1, 2, 3, 4])[1]? = some 1027 :=
  ⟨(c9_boot_order [1, 2, 3] (by decide)).1 (by decide),
   ((c9_boot_order [1, 2, 3, 4] (by decide)).2 (by decide)).1,
   ((c9_boot_order [1, 2, 3, 4] (by decide)).2 (by decide)).2 0 1 2
     (by decide) (by decide),
   ((c9_boot_order [1, 2, 3, 4] (by decide)).2 (by decide)).2 1 3 4
     (by decide) (by decide)⟩

/-- Decoding fails exactly when the buffer is shorter than the 6-byte
header or when the declared device-path length overruns the bytes left
after the (aligned) end of the description scan. -/
theorem ParseLoadOption_eq_none_iff (buf : List Nat) :
    ParseLoadOption buf = none ↔
      (buf.length < 6 ∨
        ∃ b0 b1 b2 b3 b4 b5 rest, buf = b0 :: b1 :: b2 :: b3 :: b4 :: b5 :: rest ∧
          buf.length < (ReadUcs2String buf 6).2 + (b4 + 256 * b5)) := by
  rcases buf with _ | ⟨b0, _ | ⟨b1, _ | ⟨b2, _ | ⟨b3, _ | ⟨b4, _ | ⟨b5, rest⟩⟩⟩⟩⟩⟩
  · exact iff_of_true rfl (Or.inl (by simp))
  · exact iff_of_true rfl (Or.inl (by simp))
  · exact iff_of_true rfl (Or.inl (by simp))
  · exact iff_of_true rfl (Or.inl (by simp))
  · exact iff_of_true rfl (Or.inl (by simp))
  · exact iff_of_true rfl (Or.inl (by simp))
  · rw [ParseLoadOption_cons]
    by_cases hcond : (ReadUcs2String (b0 :: b1 :: b2 :: b3 :: b4 :: b5 :: rest) 6).2 +
        (b4 + 256 * b5) ≤ (b0 :: b1 :: b2 :: b3 :: b4 :: b5 :: rest).length
    · rw [if_pos hcond]
      apply iff_of_false (by simp)
      rintro (hshort | ⟨a0, a1, a2, a3, a4, a5, r, heq, hover⟩)
      · simp at hshort
        omega
      · simp only [List.cons.injEq] at heq
        obtain ⟨rfl, rfl, rfl, rfl, rfl, rfl, rfl⟩ := heq
        omega
    · rw [if_neg hcond]
      exact iff_of_true rfl
        (Or.inr ⟨b0, b1, b2, b3, b4, b5, rest, rfl, by omega⟩)

/-- C10 (amended): decoding fails only for the two stated reasons (the
closing equivalence), and a missing description terminator is never by
itself a failure: any buffer of at least 6 bytes whose bytes after the
header contain no zero code unit and whose declared device-path length is
0 decodes successfully, with the description being every complete code
unit from offset 6 to the end and the device path empty; the optional
data is empty when the buffer ends on a code-unit boundary, and is the
single trailing half-unit byte otherwise. -/
theorem c10_decode_total (buf : List Nat) (hb : ∀ b ∈ buf, b < 256)
    (h6 : 6 ≤ buf.length) (ht : hasTerminator (buf.drop 6) = false)
    (h4 : buf[4]? = some 0) (h5 : buf[5]? = some 0) :
    (∃ p, ParseLoadOption buf = some p ∧
      p.Description = bytesToU16LE (buf.drop 6) ∧
      p.DevicePath = [] ∧
      p.OptionalData = buf.drop (6 + 2 * ((buf.length - 6) / 2)) ∧
      ((buf.length - 6) % 2 = 0 → p.OptionalData = [])) ∧
    (∀ buf2 : List Nat, ParseLoadOption buf2 = none ↔
      (buf2.length < 6 ∨
        ∃ b0 b1 b2 b3 b4 b5 rest, buf2 = b0 :: b1 :: b2 :: b3 :: b4 :: b5 :: rest ∧
          buf2.length < (ReadUcs2String buf2 6).2 + (b4 + 256 * b5))) := by
  refine ⟨?_, fun buf2 => ParseLoadOption_eq_none_iff buf2⟩
  rcases buf with _ | ⟨b0, _ | ⟨b1, _ | ⟨b2, _ | ⟨b3, _ | ⟨b4, _ | ⟨b5, rest⟩⟩⟩⟩⟩⟩
  · simp at h6
  · simp at h6
  · simp at h6
  · simp at h6
  · simp at h6
  · simp at h6
  obtain rfl : b4 = 0 := by simpa using h4
  obtain rfl : b5 = 0 := by simpa using h5
  have hdrop6 : (b0 :: b1 :: b2 :: b3 :: 0 :: 0 :: rest).drop 6 = rest := rfl
  rw [hdrop6] at ht ⊢
  have hscan := scanUcs2_noTerm rest ht
  rw [ParseLoadOption_cons, ReadUcs2String_six_even, hscan]
  have hlen : (b0 :: b1 :: b2 :: b3 :: 0 :: 0 :: rest).length = rest.length + 6 := by
    simp
  rw [hlen, if_pos (by omega)]
  refine ⟨_, rfl, ?_, ?_, ?_, ?_⟩
  · rfl
  · simp
  · have hidx : 6 + 2 * (rest.length / 2) + (0 + 256 * 0) =
        6 + 2 * ((rest.length + 6 - 6) / 2) := by omega
    rw [hidx]
  · intro hev
    have hev' : rest.length % 2 = 0 := by omega
    have hidx : 6 + 2 * (rest.length / 2) + (0 + 256 * 0) = 6 + rest.length := by
      omega
    rw [hidx]
    have : (b0 :: b1 :: b2 :: b3 :: 0 :: 0 :: rest).drop (6 + rest.length) =
        rest.drop rest.length := by
      rw [← List.drop_drop, hdrop6]
    rw [this, List.drop_length]

theorem c10_decode_total_witness :
    (∃ p, ParseLoadOption [0, 0, 0, 0, 0, 0, 1] = some p ∧
      p.Description = bytesToU16LE ([0, 0, 0, 0, 0, 0, 1].drop 6) ∧
      p.DevicePath = [] ∧
      p.OptionalData = [0, 0, 0, 0, 0, 0, 1].drop
        (6 + 2 * (([0, 0, 0, 0, 0, 0, 1].length - 6) / 2)) ∧
      (([0, 0, 0, 0, 0, 0, 1].length - 6) % 2 = 0 → p.OptionalData = [])) ∧
    (∀ buf2 : List Nat, ParseLoadOption buf2 = none ↔
      (buf2.length < 6 ∨
        ∃ b0 b1 b2 b3 b4 b5 rest, buf2 = b0 :: b1 :: b2 :: b3 :: b4 :: b5 :: rest ∧
          buf2.length < (ReadUcs2String buf2 6).2 + (b4 + 256 * b5))) :=
  c10_decode_total [0, 0, 0, 0, 0, 0, 1] (by decide) (by decide) (by decide)
    (by decide) (by decide)

/-- C10 counterexample: the claim also asserts the optional data is empty;
at the 7-byte buffer `[0,0,0,0,0,0,1]` (at least 6 bytes, no zero code
unit after the header, declared device-path length 0) decoding succeeds
but the trailing half code unit becomes the optional data, which is
therefore not empty. -/
theorem c10_counterexample :
    ParseLoadOption [0, 0, 0, 0, 0, 0, 1] = some ⟨0, 0, [], [], [1]⟩ ∧
    ([1] : List Nat) ≠ [] := by decide

example : scanUcs2 [65, 0, 0, 0, 7, 8] = ([65], 4) := by decide
example : ParseLoadOption [9, 0, 0, 0, 2, 0, 65, 0, 0, 0, 7, 8, 5] =
    some ⟨9, 2, [65], [7, 8], [5]⟩ := by decide
example : BuildLoadOption ⟨9, 2, [65], [7, 8], [5]⟩ =
    [9, 0, 0, 0, 2, 0, 65, 0, 0, 0, 7, 8, 5] := by decide
example : GetBootOrder [1, 2, 3, 4] = [513, 1027] := by decide
example : GetBootOrder [1, 2, 3] = [] := by decide

end Booteja
